import Mathlib

/-!
Verification of the folder-membership transition engine of the sync engine
(`src/inbox/server/models/namespace.py`).

The persistent store is embedded shallowly: `Thread` and `FolderItem` rows
are records, a `Store` is the committed table contents together with a
fresh-row-id counter (`FolderItem.id` is the primary key generated by the
store; `Thread.id` is the primary key of the thread table, so a join of
`FolderItem` with `Thread` yields each item at most once and is modelled by
an existential over the thread table).  Each operation is translated from
the source body: SQLAlchemy's `.one()` becomes `one` below (raising
`NoResultFound` on zero rows and `MultipleResultsFound` on several), the
Python dict built by `move_thread` keeps the last item per key, and a
missing dict key raises `KeyError`.  Every operation also records the trace
of lock/read/commit events its body performs, so that lock scoping and
commit counting are provable facts rather than conventions.
-/

structure Thread where
  id : Nat
  namespace_id : Nat
deriving DecidableEq, Repr

structure FolderItem where
  id : Nat
  thread_id : Nat
  folder_name : String
deriving DecidableEq, Repr

structure Store where
  threads : List Thread
  items : List FolderItem
  next_id : Nat
deriving DecidableEq, Repr

def Store.empty : Store := ⟨[], [], 0⟩

/-- Errors surfaced by an operation: SQLAlchemy's `NoResultFound` and
`MultipleResultsFound` from `.one()`, and Python's `KeyError` from a dict
lookup (`listings[from_folder]` in `move_thread`). -/
inductive DBError where
  | noResultFound
  | multipleResultsFound
  | keyError (key : String)
deriving DecidableEq, Repr

/-- `.one()` on a query result: exactly one row or an error. -/
def one {α : Type} (l : List α) : Except DBError α :=
  match l with
  | [] => .error .noResultFound
  | [a] => .ok a
  | _ :: _ :: _ => .error .multipleResultsFound

/-- Whether a thread row with this id exists in the namespace (the join
condition `FolderItem.join(Thread)` + `Thread.namespace_id == ns`;
`Thread.id` is a primary key, so the join keeps an item iff such a thread
exists). -/
def threadInNs (threads : List Thread) (ns tid : Nat) : Bool :=
  threads.any (fun t => t.id == tid && t.namespace_id == ns)

/-- `session.query(FolderItem).join(Thread).filter(Thread.namespace_id==ns,
FolderItem.thread_id==tid, FolderItem.folder_name==f)`. -/
def queryItems (s : Store) (ns tid : Nat) (f : String) : List FolderItem :=
  s.items.filter
    (fun i => i.thread_id == tid && i.folder_name == f &&
      threadInNs s.threads ns i.thread_id)

/-- `session.query(Thread).join(FolderItem).filter(Thread.namespace_id==ns,
FolderItem.folder_name==f)`: one thread row per matching (thread, item)
join pair. -/
def threads_for_folder (ns : Nat) (s : Store) (f : String) : List Thread :=
  s.threads.flatMap (fun t =>
    (s.items.filter (fun i =>
      i.thread_id == t.id && t.namespace_id == ns && i.folder_name == f)).map
      (fun _ => t))

/-- `session.delete(item)`: remove the row with this primary key. -/
def Store.deleteItem (s : Store) (iid : Nat) : Store :=
  { s with items := s.items.filter (fun i => i.id != iid) }

/-- `session.add(FolderItem(thread_id=tid, folder_name=f))`: insert a new
row with a fresh primary key. -/
def Store.addItem (s : Store) (tid : Nat) (f : String) : Store :=
  { s with items := s.items ++ [⟨s.next_id, tid, f⟩],
           next_id := s.next_id + 1 }

/-- `item.folder_name = f`: update the folder field of the row with this
primary key, in place (same row identity). -/
def Store.renameItem (s : Store) (iid : Nat) (f : String) : Store :=
  { s with items := s.items.map (fun i =>
      if i.id == iid then { i with folder_name := f } else i) }

/-- Observable events of one operation: lock acquisition/release for a
namespace (the `with db_write_lock(namespace_id)` scope), a query against
FolderItem state, and a commit publishing a store state. -/
inductive Event where
  | acquire (ns : Nat)
  | read
  | commit (s : Store)
  | release (ns : Nat)
deriving DecidableEq, Repr

def Event.isCommit : Event → Bool
  | .commit _ => true
  | _ => false

def commitCount (tr : List Event) : Nat :=
  (tr.filter Event.isCommit).length

/-- The committed store after a trace: only `commit` events change it. -/
def committedAfter (init : Store) (tr : List Event) : Store :=
  tr.foldl (fun acc e => match e with | .commit s => s | _ => acc) init

deriving instance DecidableEq for Except

/-- Result of running one operation: the outcome (`ok` with the committed
store, or the raised error) and the event trace of the invocation. -/
structure OpRun where
  result : Except DBError Store
  trace : List Event
deriving DecidableEq, Repr

/-- Second half of `archive_thread`: look up the `archive` item; if absent
(`NoResultFound`) create it; then commit.  `tr` holds the events already
performed under the lock. -/
def archiveStep2 (ns tid : Nat) (s1 : Store) (tr : List Event) : OpRun :=
  match one (queryItems s1 ns tid "archive") with
  | .ok _ =>
      ⟨.ok s1, tr ++ [Event.read, Event.commit s1, Event.release ns]⟩
  | .error .noResultFound =>
      let s2 := s1.addItem tid "archive"
      ⟨.ok s2, tr ++ [Event.read, Event.commit s2, Event.release ns]⟩
  | .error e =>
      ⟨.error e, tr ++ [Event.read, Event.release ns]⟩

/-- `archive_thread(namespace_id, session, thread_id)`: under the lock,
delete the `inbox` item if present (`NoResultFound` tolerated), ensure an
`archive` item exists, commit once. -/
def archive_thread (ns tid : Nat) (s : Store) : OpRun :=
  match one (queryItems s ns tid "inbox") with
  | .ok item =>
      archiveStep2 ns tid (s.deleteItem item.id) [Event.acquire ns, Event.read]
  | .error .noResultFound =>
      archiveStep2 ns tid s [Event.acquire ns, Event.read]
  | .error e =>
      ⟨.error e, [Event.acquire ns, Event.read, Event.release ns]⟩

/-- The query of `move_thread`: items of this thread in `from_folder` or
`to_folder`, restricted to the namespace. -/
def moveQuery (ns tid : Nat) (ff tf : String) (s : Store) : List FolderItem :=
  s.items.filter
    (fun i => i.thread_id == tid &&
      (i.folder_name == ff || i.folder_name == tf) &&
      threadInNs s.threads ns i.thread_id)

/-- `move_thread(namespace_id, session, thread_id, from_folder, to_folder)`:
build `listings = {item.folder_name: item}` from the query (a Python dict
keeps the last item per key); if `to_folder` is not a key, rename the
`from_folder` item in place and commit (a missing `from_folder` key raises
`KeyError`); otherwise return without writing or committing. -/
def move_thread (ns tid : Nat) (ff tf : String) (s : Store) : OpRun :=
  let q := moveQuery ns tid ff tf s
  if q.any (fun i => i.folder_name == tf) then
    ⟨.ok s, [Event.acquire ns, Event.read, Event.release ns]⟩
  else
    match (q.filter (fun i => i.folder_name == ff)).getLast? with
    | some item =>
        let s2 := s.renameItem item.id tf
        ⟨.ok s2, [Event.acquire ns, Event.read, Event.commit s2, Event.release ns]⟩
    | none =>
        ⟨.error (.keyError ff), [Event.acquire ns, Event.read, Event.release ns]⟩

/-- `copy_thread(namespace_id, session, thread_id, from_folder, to_folder)`:
`.one()` on the `from_folder` lookup, then insert a new FolderItem for the
same thread in `to_folder` (no check of `to_folder`), commit. -/
def copy_thread (ns tid : Nat) (ff tf : String) (s : Store) : OpRun :=
  match one (queryItems s ns tid ff) with
  | .ok existing =>
      let s2 := s.addItem existing.thread_id tf
      ⟨.ok s2, [Event.acquire ns, Event.read, Event.commit s2, Event.release ns]⟩
  | .error e =>
      ⟨.error e, [Event.acquire ns, Event.read, Event.release ns]⟩

/-- `delete_thread(namespace_id, session, thread_id, folder_name)`:
`.one()` on the lookup, delete the row, commit. -/
def delete_thread (ns tid : Nat) (fname : String) (s : Store) : OpRun :=
  match one (queryItems s ns tid fname) with
  | .ok item =>
      let s2 := s.deleteItem item.id
      ⟨.ok s2, [Event.acquire ns, Event.read, Event.commit s2, Event.release ns]⟩
  | .error e =>
      ⟨.error e, [Event.acquire ns, Event.read, Event.release ns]⟩

/-- The data-model invariant of §3: at most one FolderItem per
(thread, folder) pair. -/
def UniquePairs (s : Store) : Prop :=
  s.items.Pairwise
    (fun a b => a.thread_id ≠ b.thread_id ∨ a.folder_name ≠ b.folder_name)

instance (s : Store) : Decidable (UniquePairs s) := by
  unfold UniquePairs; infer_instance

/-- The FolderItem rows belonging to a namespace (via the thread that owns
them). -/
def itemsOfNamespace (s : Store) (ns : Nat) : List FolderItem :=
  s.items.filter (fun i => threadInNs s.threads ns i.thread_id)

-- sanity checks on concrete stores (spec §8 example scenario)
example :
    (archive_thread 1 10 ⟨[⟨10, 1⟩], [⟨0, 10, "inbox"⟩], 1⟩).result =
      .ok ⟨[⟨10, 1⟩], [⟨1, 10, "archive"⟩], 2⟩ := by decide

example :
    (archive_thread 1 10 ⟨[⟨10, 1⟩], [⟨1, 10, "archive"⟩], 2⟩).result =
      .ok ⟨[⟨10, 1⟩], [⟨1, 10, "archive"⟩], 2⟩ := by decide

example :
    (move_thread 1 10 "inbox" "spam" ⟨[⟨10, 1⟩], [⟨0, 10, "inbox"⟩], 1⟩).result =
      .ok ⟨[⟨10, 1⟩], [⟨0, 10, "spam"⟩], 1⟩ := by decide

example :
    (move_thread 1 10 "inbox" "spam" ⟨[⟨10, 1⟩], [], 0⟩).result =
      .error (.keyError "inbox") := by decide

example :
    (delete_thread 1 10 "inbox" ⟨[⟨10, 1⟩], [⟨0, 10, "inbox"⟩], 1⟩).result =
      .ok ⟨[⟨10, 1⟩], [], 1⟩ := by decide

/-! ### Toolkit: query results as plain filters -/

/-- Items of one thread in one folder, ignoring the namespace join. -/
def pairFilter (l : List FolderItem) (tid : Nat) (f : String) : List FolderItem :=
  l.filter (fun i => i.thread_id == tid && i.folder_name == f)

theorem queryItems_eq_pairFilter (s : Store) (ns tid : Nat) (f : String)
    (hT : threadInNs s.threads ns tid = true) :
    queryItems s ns tid f = pairFilter s.items tid f := by
  unfold queryItems pairFilter
  apply List.filter_congr
  intro i _
  cases h : (i.thread_id == tid) with
  | false => simp [h]
  | true =>
      have hid : i.thread_id = tid := by simpa using h
      simp [h, hid, hT]

theorem pairFilter_length_le_one {l : List FolderItem}
    (h : l.Pairwise (fun a b => a.thread_id ≠ b.thread_id ∨ a.folder_name ≠ b.folder_name))
    (tid : Nat) (f : String) : (pairFilter l tid f).length ≤ 1 := by
  unfold pairFilter
  induction l with
  | nil => simp
  | cons a l ih =>
      rw [List.pairwise_cons] at h
      by_cases ha : (a.thread_id == tid && a.folder_name == f) = true
      · have hfl : List.filter (fun i => i.thread_id == tid && i.folder_name == f) l = [] := by
          rw [List.eq_nil_iff_forall_not_mem]
          intro b hb
          rw [List.mem_filter] at hb
          obtain ⟨hbl, hbp⟩ := hb
          have h1 : a.thread_id = tid ∧ a.folder_name = f := by
            simpa using ha
          have h2 : b.thread_id = tid ∧ b.folder_name = f := by
            simpa using hbp
          rcases h.1 b hbl with hne | hne
          · exact hne (h1.1.trans h2.1.symm)
          · exact hne (h1.2.trans h2.2.symm)
        rw [List.filter_cons, if_pos ha, hfl]
        simp
      · rw [List.filter_cons, if_neg ha]
        exact ih h.2

theorem length_le_one_cases {α : Type} {l : List α} (h : l.length ≤ 1) :
    l = [] ∨ ∃ a, l = [a] := by
  match l with
  | [] => exact Or.inl rfl
  | [a] => exact Or.inr ⟨a, rfl⟩
  | a :: b :: t => simp at h

theorem pairFilter_of_filter (l : List FolderItem) (p : FolderItem → Bool)
    (tid : Nat) (f : String) :
    pairFilter (l.filter p) tid f = (pairFilter l tid f).filter p := by
  unfold pairFilter
  rw [List.filter_filter, List.filter_filter]
  apply List.filter_congr
  intro i _
  cases p i <;> simp

theorem mem_pairFilter {l : List FolderItem} {i : FolderItem} {tid : Nat} {f : String}
    (h : i ∈ pairFilter l tid f) :
    i ∈ l ∧ i.thread_id = tid ∧ i.folder_name = f := by
  rw [pairFilter, List.mem_filter] at h
  have h2 : i.thread_id = tid ∧ i.folder_name = f := by simpa using h.2
  exact ⟨h.1, h2.1, h2.2⟩

/-! ### Behaviour of archive_thread (claims about convergence and
idempotence) -/

theorem archiveStep2_spec (ns tid : Nat) (s1 : Store) (tr : List Event)
    (hT : threadInNs s1.threads ns tid = true)
    (hU : UniquePairs s1)
    (hIn : pairFilter s1.items tid "inbox" = []) :
    ∃ s2, (archiveStep2 ns tid s1 tr).result = .ok s2 ∧
      s2.threads = s1.threads ∧
      pairFilter s2.items tid "inbox" = [] ∧
      (pairFilter s2.items tid "archive").length = 1 ∧
      UniquePairs s2 := by
  have hq : queryItems s1 ns tid "archive" = pairFilter s1.items tid "archive" :=
    queryItems_eq_pairFilter s1 ns tid "archive" hT
  have hlen : (pairFilter s1.items tid "archive").length ≤ 1 :=
    pairFilter_length_le_one hU tid "archive"
  rcases length_le_one_cases hlen with hnil | ⟨b, hb⟩
  · -- no archive item: one new row is inserted
    refine ⟨s1.addItem tid "archive", ?_, ?_, ?_, ?_, ?_⟩
    pick_goal 2
    · rfl
    · rw [archiveStep2, hq, hnil]; rfl
    · show pairFilter (s1.items ++ [⟨s1.next_id, tid, "archive"⟩]) tid "inbox" = []
      rw [pairFilter, List.filter_append]
      rw [pairFilter] at hIn
      rw [hIn]
      simp
    · show (pairFilter (s1.items ++ [⟨s1.next_id, tid, "archive"⟩]) tid "archive").length = 1
      rw [pairFilter, List.filter_append]
      rw [pairFilter] at hnil
      rw [hnil]
      simp
    · show (s1.items ++ [(⟨s1.next_id, tid, "archive"⟩ : FolderItem)]).Pairwise
        (fun a b => a.thread_id ≠ b.thread_id ∨ a.folder_name ≠ b.folder_name)
      rw [List.pairwise_append]
      refine ⟨hU, List.pairwise_singleton _ _, ?_⟩
      intro a ha b hb
      rw [List.mem_singleton] at hb
      subst hb
      by_contra hcon
      push_neg at hcon
      have : a ∈ pairFilter s1.items tid "archive" := by
        rw [pairFilter, List.mem_filter]
        exact ⟨ha, by simp [hcon.1, hcon.2]⟩
      rw [hnil] at this
      exact absurd this (List.not_mem_nil a)
  · -- archive item already present: nothing changes
    refine ⟨s1, ?_, rfl, hIn, by rw [hb]; rfl, hU⟩
    rw [archiveStep2, hq, hb]
    rfl

theorem archive_spec (ns tid : Nat) (s : Store)
    (hT : threadInNs s.threads ns tid = true)
    (hU : UniquePairs s) :
    ∃ s2, (archive_thread ns tid s).result = .ok s2 ∧
      s2.threads = s.threads ∧
      pairFilter s2.items tid "inbox" = [] ∧
      (pairFilter s2.items tid "archive").length = 1 ∧
      UniquePairs s2 := by
  have hq : queryItems s ns tid "inbox" = pairFilter s.items tid "inbox" :=
    queryItems_eq_pairFilter s ns tid "inbox" hT
  have hlen : (pairFilter s.items tid "inbox").length ≤ 1 :=
    pairFilter_length_le_one hU tid "inbox"
  rcases length_le_one_cases hlen with hnil | ⟨a, ha⟩
  · -- inbox empty: NoResultFound is tolerated
    have h2 := archiveStep2_spec ns tid s [Event.acquire ns, Event.read] hT hU hnil
    obtain ⟨s2, hres, hth, hin, har, hu⟩ := h2
    refine ⟨s2, ?_, hth, hin, har, hu⟩
    rw [archive_thread, hq, hnil]
    exact hres
  · -- exactly one inbox item: it is deleted before the archive lookup
    have hdel_thr : (s.deleteItem a.id).threads = s.threads := rfl
    have hdel_items : (s.deleteItem a.id).items = s.items.filter (fun i => i.id != a.id) := rfl
    have hT1 : threadInNs (s.deleteItem a.id).threads ns tid = true := by
      rw [hdel_thr]; exact hT
    have hU1 : UniquePairs (s.deleteItem a.id) := by
      show ((s.deleteItem a.id).items).Pairwise _
      rw [hdel_items]
      exact List.Pairwise.sublist (List.filter_sublist s.items) hU
    have hIn1 : pairFilter (s.deleteItem a.id).items tid "inbox" = [] := by
      rw [hdel_items, pairFilter_of_filter, ha]
      simp
    have h2 := archiveStep2_spec ns tid (s.deleteItem a.id)
      [Event.acquire ns, Event.read] hT1 hU1 hIn1
    obtain ⟨s2, hres, hth, hin, har, hu⟩ := h2
    refine ⟨s2, ?_, by rw [hth, hdel_thr], hin, har, hu⟩
    rw [archive_thread, hq, ha]
    exact hres

/-! ### Concrete stores used by witnesses and counterexamples -/

/-- One thread (id 10) in namespace 1, sitting only in `inbox`. -/
def storeInbox : Store := ⟨[⟨10, 1⟩], [⟨0, 10, "inbox"⟩], 1⟩

/-- One thread (id 10) in namespace 1, sitting only in `archive`. -/
def storeArchiveOnly : Store := ⟨[⟨10, 1⟩], [⟨0, 10, "archive"⟩], 1⟩

/-- One thread (id 10) in namespace 1, with no FolderItem at all. -/
def storeBare : Store := ⟨[⟨10, 1⟩], [], 0⟩

/-- C1: for every starting membership state (inbox only, absent from both,
or already archived), provided at most one FolderItem exists per
(thread, folder) pair, `archive_thread` returns normally and afterwards the
thread has a FolderItem in `archive` and none in `inbox`. -/
theorem archive_thread_converges (ns tid : Nat) (s : Store)
    (hT : threadInNs s.threads ns tid = true)
    (hU : UniquePairs s) :
    ∃ s2, (archive_thread ns tid s).result = .ok s2 ∧
      queryItems s2 ns tid "archive" ≠ [] ∧
      queryItems s2 ns tid "inbox" = [] := by
  obtain ⟨s2, hres, hth, hin, har, _⟩ := archive_spec ns tid s hT hU
  have hT2 : threadInNs s2.threads ns tid = true := by rw [hth]; exact hT
  refine ⟨s2, hres, ?_, ?_⟩
  · rw [queryItems_eq_pairFilter s2 ns tid "archive" hT2]
    intro hc
    rw [hc] at har
    simp at har
  · rw [queryItems_eq_pairFilter s2 ns tid "inbox" hT2]
    exact hin

theorem archive_thread_converges_witness :
    threadInNs storeInbox.threads 1 10 = true ∧ UniquePairs storeInbox ∧
    ∃ s2, (archive_thread 1 10 storeInbox).result = .ok s2 ∧
      queryItems s2 1 10 "archive" ≠ [] ∧
      queryItems s2 1 10 "inbox" = [] :=
  ⟨by decide, by decide,
    archive_thread_converges 1 10 storeInbox (by decide) (by decide)⟩

/-- C2: under the same uniqueness assumption, running `archive_thread`
twice in sequence gives the same final membership as running it once (the
second run returns the very same store) and the second run succeeds. -/
theorem archive_thread_idempotent (ns tid : Nat) (s : Store)
    (hT : threadInNs s.threads ns tid = true)
    (hU : UniquePairs s) :
    ∃ s1, (archive_thread ns tid s).result = .ok s1 ∧
      (archive_thread ns tid s1).result = .ok s1 := by
  obtain ⟨s1, hres, hth, hin, har, _⟩ := archive_spec ns tid s hT hU
  have hT1 : threadInNs s1.threads ns tid = true := by rw [hth]; exact hT
  refine ⟨s1, hres, ?_⟩
  rw [archive_thread, queryItems_eq_pairFilter s1 ns tid "inbox" hT1, hin]
  show (archiveStep2 ns tid s1 [Event.acquire ns, Event.read]).result = .ok s1
  rw [archiveStep2, queryItems_eq_pairFilter s1 ns tid "archive" hT1]
  obtain ⟨b, hb⟩ := List.length_eq_one.mp har
  rw [hb]
  rfl

theorem archive_thread_idempotent_witness :
    threadInNs storeInbox.threads 1 10 = true ∧ UniquePairs storeInbox ∧
    ∃ s1, (archive_thread 1 10 storeInbox).result = .ok s1 ∧
      (archive_thread 1 10 s1).result = .ok s1 :=
  ⟨by decide, by decide,
    archive_thread_idempotent 1 10 storeInbox (by decide) (by decide)⟩

/-- C3: namespace isolation fails for `archive_thread`.  Thread 10 belongs
to namespace 2 and has no FolderItem; invoking `archive_thread` with
namespace_id 1 (a different namespace) nevertheless returns normally and
inserts a FolderItem attached to namespace 2's thread: the FolderItem rows
of namespace 2 change from none to one.  (The `inbox`/`archive` lookups are
namespace-filtered, but the `session.add(FolderItem(thread_id=...))` insert
is not.) -/
theorem archive_thread_crosses_namespaces :
    (archive_thread 1 10 ⟨[⟨10, 2⟩], [], 0⟩).result =
      .ok ⟨[⟨10, 2⟩], [⟨0, 10, "archive"⟩], 1⟩ ∧
    itemsOfNamespace ⟨[⟨10, 2⟩], [⟨0, 10, "archive"⟩], 1⟩ 2 = [⟨0, 10, "archive"⟩] ∧
    itemsOfNamespace ⟨[⟨10, 2⟩], [], 0⟩ 2 = [] := by
  refine ⟨?_, ?_, ?_⟩ <;> decide

/-! ### Behaviour of move_thread (no-op guard and missing-item failure) -/

theorem moveQuery_any_tf (ns tid : Nat) (ff tf : String) (s : Store) :
    (moveQuery ns tid ff tf s).any (fun i => i.folder_name == tf) = true ↔
      queryItems s ns tid tf ≠ [] := by
  constructor
  · intro h hc
    rw [List.any_eq_true] at h
    obtain ⟨i, hi, hf⟩ := h
    rw [moveQuery, List.mem_filter] at hi
    have hmem : i ∈ queryItems s ns tid tf := by
      rw [queryItems, List.mem_filter]
      refine ⟨hi.1, ?_⟩
      have hp := hi.2
      simp only [Bool.and_eq_true] at hp ⊢
      exact ⟨⟨hp.1.1, hf⟩, hp.2⟩
    rw [hc] at hmem
    exact absurd hmem (List.not_mem_nil i)
  · intro h
    obtain ⟨i, hi⟩ := List.exists_mem_of_ne_nil _ h
    rw [queryItems, List.mem_filter] at hi
    rw [List.any_eq_true]
    refine ⟨i, ?_, ?_⟩
    · rw [moveQuery, List.mem_filter]
      refine ⟨hi.1, ?_⟩
      have hp := hi.2
      simp only [Bool.and_eq_true, Bool.or_eq_true] at hp ⊢
      exact ⟨⟨hp.1.1, Or.inr hp.1.2⟩, hp.2⟩
    · have hp := hi.2
      simp only [Bool.and_eq_true] at hp
      exact hp.1.2

theorem moveQuery_filter_ff (ns tid : Nat) (ff tf : String) (s : Store) :
    (moveQuery ns tid ff tf s).filter (fun i => i.folder_name == ff) =
      queryItems s ns tid ff := by
  rw [moveQuery, queryItems, List.filter_filter]
  apply List.filter_congr
  intro i _
  cases hf : (i.folder_name == ff) <;>
    cases ht : (i.thread_id == tid) <;>
    simp [hf, ht]

/-- C4: if the thread already has a FolderItem in `to_folder`, `move_thread`
is a no-op: it returns normally with the store unchanged (so any
`from_folder` item is untouched and no row is created) and its trace holds
no commit. -/
theorem move_thread_noop (ns tid : Nat) (ff tf : String) (s : Store)
    (hTo : queryItems s ns tid tf ≠ []) :
    move_thread ns tid ff tf s =
      ⟨.ok s, [Event.acquire ns, Event.read, Event.release ns]⟩ := by
  have h := (moveQuery_any_tf ns tid ff tf s).mpr hTo
  unfold move_thread
  simp [h]

theorem move_thread_noop_witness :
    queryItems storeArchiveOnly 1 10 "archive" ≠ [] ∧
    move_thread 1 10 "inbox" "archive" storeArchiveOnly =
      ⟨.ok storeArchiveOnly, [Event.acquire 1, Event.read, Event.release 1]⟩ :=
  ⟨by decide, move_thread_noop 1 10 "inbox" "archive" storeArchiveOnly (by decide)⟩

/-- C5 (amended): when the thread has a FolderItem in neither `from_folder`
nor `to_folder`, `move_thread` fails and the failure is a `KeyError` on the
`from_folder` dict lookup, propagated to the caller unmodified — a
different exception kind from the `NoResultFound` raised by copy's and
delete's missing-item lookups. -/
theorem move_thread_missing_raises_keyerror (ns tid : Nat) (ff tf : String)
    (s : Store)
    (hFrom : queryItems s ns tid ff = [])
    (hTo : queryItems s ns tid tf = []) :
    (move_thread ns tid ff tf s).result = .error (.keyError ff) := by
  have hAny : (moveQuery ns tid ff tf s).any (fun i => i.folder_name == tf) = false := by
    cases hA : (moveQuery ns tid ff tf s).any (fun i => i.folder_name == tf) with
    | false => rfl
    | true => exact absurd hTo ((moveQuery_any_tf ns tid ff tf s).mp hA)
  unfold move_thread
  simp [hAny, moveQuery_filter_ff, hFrom]

theorem move_thread_missing_raises_keyerror_witness :
    queryItems storeBare 1 10 "inbox" = [] ∧
    queryItems storeBare 1 10 "archive" = [] ∧
    (move_thread 1 10 "inbox" "archive" storeBare).result =
      .error (.keyError "inbox") :=
  ⟨by decide, by decide,
    move_thread_missing_raises_keyerror 1 10 "inbox" "archive" storeBare
      (by decide) (by decide)⟩

/-- C5 counterexample: on the same missing-item state, move's failure is
`KeyError "inbox"` while delete's and copy's are `NoResultFound`; the error
kinds are not the same, so "signaled ... as the same kind as copy's and
delete's missing-item failures" is false on the code. -/
theorem move_thread_error_kind_differs :
    (move_thread 1 10 "inbox" "archive" storeBare).result =
      .error (.keyError "inbox") ∧
    (delete_thread 1 10 "inbox" storeBare).result = .error .noResultFound ∧
    (copy_thread 1 10 "inbox" "archive" storeBare).result =
      .error .noResultFound ∧
    DBError.keyError "inbox" ≠ DBError.noResultFound := by
  refine ⟨?_, ?_, ?_, ?_⟩ <;> decide

/-! ### Behaviour of copy_thread and delete_thread -/

/-- C6: when the thread has a FolderItem in `from_folder` (and, by the
data-model invariant, only one) and none in `to_folder`, two successive
identical `copy_thread` calls both succeed and leave two FolderItems for
the (thread, to_folder) pair: the uniqueness invariant is violated, not
prevented. -/
theorem copy_thread_twice_duplicates (ns tid : Nat) (ff tf : String) (s : Store)
    (hT : threadInNs s.threads ns tid = true)
    (hU : UniquePairs s)
    (hFrom : queryItems s ns tid ff ≠ [])
    (hTo : queryItems s ns tid tf = []) :
    ∃ s1 s2, (copy_thread ns tid ff tf s).result = .ok s1 ∧
      (copy_thread ns tid ff tf s1).result = .ok s2 ∧
      (queryItems s2 ns tid tf).length = 2 := by
  have hq : queryItems s ns tid ff = pairFilter s.items tid ff :=
    queryItems_eq_pairFilter s ns tid ff hT
  have hlen : (pairFilter s.items tid ff).length ≤ 1 :=
    pairFilter_length_le_one hU tid ff
  rcases length_le_one_cases hlen with hnil | ⟨a, ha⟩
  · rw [hq, hnil] at hFrom
    exact absurd rfl hFrom
  · have hmem : a ∈ pairFilter s.items tid ff := by
      rw [ha]; exact List.mem_singleton_self a
    obtain ⟨_, hatid, _⟩ := mem_pairFilter hmem
    have hneq : tf ≠ ff := by
      intro h
      apply hFrom
      rw [← h]
      exact hTo
    refine ⟨s.addItem tid tf, (s.addItem tid tf).addItem tid tf, ?_, ?_, ?_⟩
    · rw [copy_thread, hq, ha]
      show Except.ok (s.addItem a.thread_id tf) = _
      rw [hatid]
    · have hT1 : threadInNs (s.addItem tid tf).threads ns tid = true := hT
      have hq1 : queryItems (s.addItem tid tf) ns tid ff =
          pairFilter (s.addItem tid tf).items tid ff :=
        queryItems_eq_pairFilter (s.addItem tid tf) ns tid ff hT1
      have hpf1 : pairFilter (s.addItem tid tf).items tid ff = [a] := by
        show pairFilter (s.items ++ [⟨s.next_id, tid, tf⟩]) tid ff = [a]
        rw [pairFilter, List.filter_append]
        rw [pairFilter] at ha
        rw [ha]
        simp [hneq]
      rw [copy_thread, hq1, hpf1]
      show Except.ok ((s.addItem tid tf).addItem a.thread_id tf) = _
      rw [hatid]
    · have hT2 : threadInNs ((s.addItem tid tf).addItem tid tf).threads ns tid = true := hT
      rw [queryItems_eq_pairFilter _ ns tid tf hT2]
      have hpfS : pairFilter s.items tid tf = [] := by
        rw [← queryItems_eq_pairFilter s ns tid tf hT]
        exact hTo
      show (pairFilter ((s.items ++ [⟨s.next_id, tid, tf⟩]) ++
        [⟨(s.addItem tid tf).next_id, tid, tf⟩]) tid tf).length = 2
      rw [pairFilter, List.filter_append, List.filter_append]
      rw [pairFilter] at hpfS
      rw [hpfS]
      simp

theorem copy_thread_twice_duplicates_witness :
    threadInNs storeInbox.threads 1 10 = true ∧ UniquePairs storeInbox ∧
    queryItems storeInbox 1 10 "inbox" ≠ [] ∧
    queryItems storeInbox 1 10 "archive" = [] ∧
    ∃ s1 s2, (copy_thread 1 10 "inbox" "archive" storeInbox).result = .ok s1 ∧
      (copy_thread 1 10 "inbox" "archive" s1).result = .ok s2 ∧
      (queryItems s2 1 10 "archive").length = 2 :=
  ⟨by decide, by decide, by decide, by decide,
    copy_thread_twice_duplicates 1 10 "inbox" "archive" storeInbox
      (by decide) (by decide) (by decide) (by decide)⟩

/-- C7: when the thread has exactly one FolderItem in `folder_name`, the
first `delete_thread` succeeds (removing it) and an identical second call
fails with `NoResultFound`: delete is not idempotent. -/
theorem delete_thread_twice_fails (ns tid : Nat) (fname : String) (s : Store)
    (hOne : (queryItems s ns tid fname).length = 1) :
    ∃ s1, (delete_thread ns tid fname s).result = .ok s1 ∧
      (delete_thread ns tid fname s1).result = .error .noResultFound := by
  obtain ⟨a, ha⟩ := List.length_eq_one.mp hOne
  refine ⟨s.deleteItem a.id, ?_, ?_⟩
  · rw [delete_thread, ha]
    rfl
  · have hquery1 : queryItems (s.deleteItem a.id) ns tid fname = [] := by
      have h1 : queryItems (s.deleteItem a.id) ns tid fname =
          (s.items.filter (fun i => i.id != a.id)).filter
            (fun i => i.thread_id == tid && i.folder_name == fname &&
              threadInNs s.threads ns i.thread_id) := rfl
      have h2 : (queryItems s ns tid fname).filter (fun i => i.id != a.id) = [] := by
        rw [ha]
        simp
      rw [queryItems, List.filter_filter] at h2
      rw [h1, List.filter_filter, ← h2]
      apply List.filter_congr
      intro i _
      exact Bool.and_comm _ _
    rw [delete_thread, hquery1]
    rfl

theorem delete_thread_twice_fails_witness :
    (queryItems storeInbox 1 10 "inbox").length = 1 ∧
    ∃ s1, (delete_thread 1 10 "inbox" storeInbox).result = .ok s1 ∧
      (delete_thread 1 10 "inbox" s1).result = .error .noResultFound :=
  ⟨by decide, delete_thread_twice_fails 1 10 "inbox" storeInbox (by decide)⟩

/-! ### Lock scoping and commit counting (traces of the four mutating
operations) -/

/-- The invocation's trace opens by acquiring the namespace lock (before
any read) and closes by releasing it (on every path). -/
def lockScoped (ns : Nat) (r : OpRun) : Prop :=
  r.trace.head? = some (.acquire ns) ∧ r.trace.getLast? = some (.release ns)

/-- Exactly one commit on normal return, none when the operation raises. -/
def commitsOnce (r : OpRun) : Prop :=
  (∀ s2, r.result = .ok s2 → commitCount r.trace = 1) ∧
  (∀ e, r.result = .error e → commitCount r.trace = 0)

theorem archiveStep2_shape (ns tid : Nat) (s1 : Store) :
    (∃ s2, archiveStep2 ns tid s1 [Event.acquire ns, Event.read] =
      ⟨.ok s2, [Event.acquire ns, Event.read, Event.read,
        Event.commit s2, Event.release ns]⟩) ∨
    (∃ e, archiveStep2 ns tid s1 [Event.acquire ns, Event.read] =
      ⟨.error e, [Event.acquire ns, Event.read, Event.read, Event.release ns]⟩) := by
  rw [archiveStep2]
  cases h2 : one (queryItems s1 ns tid "archive") with
  | ok b => exact Or.inl ⟨s1, rfl⟩
  | error e =>
      cases e with
      | noResultFound => exact Or.inl ⟨s1.addItem tid "archive", rfl⟩
      | multipleResultsFound => exact Or.inr ⟨_, rfl⟩
      | keyError k => exact Or.inr ⟨_, rfl⟩

theorem archive_thread_shape (ns tid : Nat) (s : Store) :
    (∃ s2, archive_thread ns tid s =
      ⟨.ok s2, [Event.acquire ns, Event.read, Event.read,
        Event.commit s2, Event.release ns]⟩) ∨
    (∃ e, archive_thread ns tid s =
      ⟨.error e, [Event.acquire ns, Event.read, Event.read, Event.release ns]⟩) ∨
    (∃ e, archive_thread ns tid s =
      ⟨.error e, [Event.acquire ns, Event.read, Event.release ns]⟩) := by
  rw [archive_thread]
  cases h1 : one (queryItems s ns tid "inbox") with
  | ok item =>
      rcases archiveStep2_shape ns tid (s.deleteItem item.id) with ⟨s2, h⟩ | ⟨e, h⟩
      · exact Or.inl ⟨s2, h⟩
      · exact Or.inr (Or.inl ⟨e, h⟩)
  | error e =>
      cases e with
      | noResultFound =>
          rcases archiveStep2_shape ns tid s with ⟨s2, h⟩ | ⟨e, h⟩
          · exact Or.inl ⟨s2, h⟩
          · exact Or.inr (Or.inl ⟨e, h⟩)
      | multipleResultsFound => exact Or.inr (Or.inr ⟨_, rfl⟩)
      | keyError k => exact Or.inr (Or.inr ⟨_, rfl⟩)

theorem move_thread_shape (ns tid : Nat) (ff tf : String) (s : Store) :
    (move_thread ns tid ff tf s =
       ⟨.ok s, [Event.acquire ns, Event.read, Event.release ns]⟩ ∧
     (moveQuery ns tid ff tf s).any (fun i => i.folder_name == tf) = true) ∨
    ((∃ item : FolderItem, move_thread ns tid ff tf s =
       ⟨.ok (s.renameItem item.id tf),
        [Event.acquire ns, Event.read,
         Event.commit (s.renameItem item.id tf), Event.release ns]⟩) ∧
     (moveQuery ns tid ff tf s).any (fun i => i.folder_name == tf) = false) ∨
    (move_thread ns tid ff tf s =
       ⟨.error (.keyError ff), [Event.acquire ns, Event.read, Event.release ns]⟩ ∧
     (moveQuery ns tid ff tf s).any (fun i => i.folder_name == tf) = false) := by
  cases hA : (moveQuery ns tid ff tf s).any (fun i => i.folder_name == tf) with
  | true =>
      refine Or.inl ⟨?_, rfl⟩
      unfold move_thread
      simp [hA]
  | false =>
      cases hL : ((moveQuery ns tid ff tf s).filter
          (fun i => i.folder_name == ff)).getLast? with
      | some item =>
          refine Or.inr (Or.inl ⟨⟨item, ?_⟩, rfl⟩)
          unfold move_thread
          simp [hA, hL]
      | none =>
          refine Or.inr (Or.inr ⟨?_, rfl⟩)
          unfold move_thread
          simp [hA, hL]

theorem copy_thread_shape (ns tid : Nat) (ff tf : String) (s : Store) :
    (∃ ex : FolderItem, copy_thread ns tid ff tf s =
      ⟨.ok (s.addItem ex.thread_id tf),
       [Event.acquire ns, Event.read,
        Event.commit (s.addItem ex.thread_id tf), Event.release ns]⟩) ∨
    (∃ e, copy_thread ns tid ff tf s =
      ⟨.error e, [Event.acquire ns, Event.read, Event.release ns]⟩) := by
  rw [copy_thread]
  cases h : one (queryItems s ns tid ff) with
  | ok ex => exact Or.inl ⟨ex, rfl⟩
  | error e => exact Or.inr ⟨e, rfl⟩

theorem delete_thread_shape (ns tid : Nat) (fname : String) (s : Store) :
    (∃ item : FolderItem, delete_thread ns tid fname s =
      ⟨.ok (s.deleteItem item.id),
       [Event.acquire ns, Event.read,
        Event.commit (s.deleteItem item.id), Event.release ns]⟩) ∨
    (∃ e, delete_thread ns tid fname s =
      ⟨.error e, [Event.acquire ns, Event.read, Event.release ns]⟩) := by
  rw [delete_thread]
  cases h : one (queryItems s ns tid fname) with
  | ok item => exact Or.inl ⟨item, rfl⟩
  | error e => exact Or.inr ⟨e, rfl⟩

/-- C8 (amended): every invocation of the four mutating operations opens
its trace by acquiring the namespace lock (before any read) and closes it
by releasing the lock, on normal and error paths alike; archive, copy and
delete perform exactly one commit on normal return and none on error;
`move_thread` performs one commit on its renaming path but ZERO commits on
its no-op path (when the query already shows an item in `to_folder`), and
none on error — so "exactly one commit" does not hold for move's no-op
returns. -/
theorem mutating_ops_lock_and_commit (ns tid : Nat) (ff tf fname : String)
    (s : Store) :
    (lockScoped ns (archive_thread ns tid s) ∧
      commitsOnce (archive_thread ns tid s)) ∧
    (lockScoped ns (move_thread ns tid ff tf s) ∧
      (∀ e, (move_thread ns tid ff tf s).result = .error e →
        commitCount (move_thread ns tid ff tf s).trace = 0) ∧
      (∀ s2, (move_thread ns tid ff tf s).result = .ok s2 →
        commitCount (move_thread ns tid ff tf s).trace =
          (if (moveQuery ns tid ff tf s).any (fun i => i.folder_name == tf)
            then 0 else 1))) ∧
    (lockScoped ns (copy_thread ns tid ff tf s) ∧
      commitsOnce (copy_thread ns tid ff tf s)) ∧
    (lockScoped ns (delete_thread ns tid fname s) ∧
      commitsOnce (delete_thread ns tid fname s)) := by
  refine ⟨?_, ?_, ?_, ?_⟩
  · rcases archive_thread_shape ns tid s with ⟨s2, h⟩ | ⟨e, h⟩ | ⟨e, h⟩ <;>
      rw [h] <;>
      exact ⟨⟨rfl, rfl⟩, fun s3 hr => by first | rfl | simp at hr,
        fun e2 hr => by first | rfl | simp at hr⟩
  · rcases move_thread_shape ns tid ff tf s with ⟨h, hA⟩ | ⟨⟨item, h⟩, hA⟩ | ⟨h, hA⟩ <;>
      rw [h, hA] <;>
      exact ⟨⟨rfl, rfl⟩, fun e2 hr => by first | rfl | simp at hr,
        fun s3 hr => by first | rfl | simp at hr⟩
  · rcases copy_thread_shape ns tid ff tf s with ⟨ex, h⟩ | ⟨e, h⟩ <;>
      rw [h] <;>
      exact ⟨⟨rfl, rfl⟩, fun s3 hr => by first | rfl | simp at hr,
        fun e2 hr => by first | rfl | simp at hr⟩
  · rcases delete_thread_shape ns tid fname s with ⟨item, h⟩ | ⟨e, h⟩ <;>
      rw [h] <;>
      exact ⟨⟨rfl, rfl⟩, fun s3 hr => by first | rfl | simp at hr,
        fun e2 hr => by first | rfl | simp at hr⟩

theorem mutating_ops_lock_and_commit_witness :
    (archive_thread 1 10 storeInbox).result =
      .ok ⟨[⟨10, 1⟩], [⟨1, 10, "archive"⟩], 2⟩ ∧
    lockScoped 1 (archive_thread 1 10 storeInbox) ∧
    commitCount (archive_thread 1 10 storeInbox).trace = 1 :=
  ⟨by decide,
    (mutating_ops_lock_and_commit 1 10 "a" "b" "c" storeInbox).1.1,
    (mutating_ops_lock_and_commit 1 10 "a" "b" "c" storeInbox).1.2.1
      ⟨[⟨10, 1⟩], [⟨1, 10, "archive"⟩], 2⟩ (by decide)⟩

/-- C8 counterexample: `move_thread` on a state whose thread already sits
in `to_folder` returns normally yet its trace holds no commit — refuting
"every normally-returning invocation performs exactly one commit". -/
theorem move_thread_noop_commits_nothing :
    (move_thread 1 10 "inbox" "archive" storeArchiveOnly).result =
      .ok storeArchiveOnly ∧
    commitCount (move_thread 1 10 "inbox" "archive" storeArchiveOnly).trace = 0 := by
  refine ⟨?_, ?_⟩ <;> decide

/-- C10: whenever one of the four mutating operations raises, its trace
holds no commit, so the committed store after the invocation is exactly the
store it started from. -/
theorem mutating_ops_atomic_on_error (ns tid : Nat) (ff tf fname : String)
    (s : Store) :
    (∀ e, (archive_thread ns tid s).result = .error e →
      commitCount (archive_thread ns tid s).trace = 0 ∧
      committedAfter s (archive_thread ns tid s).trace = s) ∧
    (∀ e, (move_thread ns tid ff tf s).result = .error e →
      commitCount (move_thread ns tid ff tf s).trace = 0 ∧
      committedAfter s (move_thread ns tid ff tf s).trace = s) ∧
    (∀ e, (copy_thread ns tid ff tf s).result = .error e →
      commitCount (copy_thread ns tid ff tf s).trace = 0 ∧
      committedAfter s (copy_thread ns tid ff tf s).trace = s) ∧
    (∀ e, (delete_thread ns tid fname s).result = .error e →
      commitCount (delete_thread ns tid fname s).trace = 0 ∧
      committedAfter s (delete_thread ns tid fname s).trace = s) := by
  refine ⟨?_, ?_, ?_, ?_⟩
  · rcases archive_thread_shape ns tid s with ⟨s2, h⟩ | ⟨e, h⟩ | ⟨e, h⟩ <;>
      rw [h] <;>
      exact fun e2 hr => by first | exact ⟨rfl, rfl⟩ | simp at hr
  · rcases move_thread_shape ns tid ff tf s with ⟨h, _⟩ | ⟨⟨item, h⟩, _⟩ | ⟨h, _⟩ <;>
      rw [h] <;>
      exact fun e2 hr => by first | exact ⟨rfl, rfl⟩ | simp at hr
  · rcases copy_thread_shape ns tid ff tf s with ⟨ex, h⟩ | ⟨e, h⟩ <;>
      rw [h] <;>
      exact fun e2 hr => by first | exact ⟨rfl, rfl⟩ | simp at hr
  · rcases delete_thread_shape ns tid fname s with ⟨item, h⟩ | ⟨e, h⟩ <;>
      rw [h] <;>
      exact fun e2 hr => by first | exact ⟨rfl, rfl⟩ | simp at hr

theorem mutating_ops_atomic_on_error_witness :
    (delete_thread 1 10 "inbox" storeBare).result = .error .noResultFound ∧
    committedAfter storeBare (delete_thread 1 10 "inbox" storeBare).trace =
      storeBare :=
  ⟨by decide,
    ((mutating_ops_atomic_on_error 1 10 "a" "b" "inbox" storeBare).2.2.2
      .noResultFound (by decide)).2⟩

/-! ### The namespace lock and serialization of mutating sequences -/

/-- One of the four mutating operations, as scheduled under the lock. -/
inductive MutOp where
  | archiveOp (tid : Nat)
  | moveOp (tid : Nat) (ff tf : String)
  | copyOp (tid : Nat) (ff tf : String)
  | deleteOp (tid : Nat) (fname : String)
deriving DecidableEq

/-- The committed store produced by one operation body (an erroring body
commits nothing, see `mutating_ops_atomic_on_error`). -/
def runOp (ns : Nat) (op : MutOp) (s : Store) : Store :=
  match op with
  | .archiveOp tid =>
      match (archive_thread ns tid s).result with
      | .ok s2 => s2
      | .error _ => s
  | .moveOp tid ff tf =>
      match (move_thread ns tid ff tf s).result with
      | .ok s2 => s2
      | .error _ => s
  | .copyOp tid ff tf =>
      match (copy_thread ns tid ff tf s).result with
      | .ok s2 => s2
      | .error _ => s
  | .deleteOp tid fname =>
      match (delete_thread ns tid fname s).result with
      | .ok s2 => s2
      | .error _ => s

/-- A caller about to run one mutating operation against one namespace. -/
structure Proc where
  ns : Nat
  op : MutOp
deriving DecidableEq

def Proc.body (p : Proc) (s : Store) : Store := runOp p.ns p.op s

/-- Where a caller stands in its read-decide-write-commit sequence:
not started; lock acquired; state read under the lock (`snap` is the
FolderItem state it decided from); written and committed; lock released. -/
inductive Phase where
  | todo
  | locked
  | readDone (snap : Store)
  | written
  | done
deriving DecidableEq

/-- Holding the lock: between acquisition and release. -/
def Phase.inCrit : Phase → Bool
  | .todo => false
  | .done => false
  | _ => true

/-- Modelled from the spec: the cross-process Namespace Lock
(`inbox.util.file.Lock`, used by `db_write_lock`, lives outside this
module) — "blocking mutual exclusion keyed by an identifier": per
namespace, `acquire` succeeds only while no other holder has the token,
and the token is freed on `release`.  `store` is the committed FolderItem
state of each namespace; `ph` the phase of each caller; `lock` the current
holder, if any, of each namespace's token. -/
structure Sys where
  store : Nat → Store
  ph : Nat → Phase
  lock : Nat → Option Nat

def updF {α : Type} (f : Nat → α) (k : Nat) (v : α) : Nat → α :=
  fun x => if x = k then v else f x

theorem updF_same {α : Type} (f : Nat → α) (k : Nat) (v : α) :
    updF f k v k = v := by simp [updF]

theorem updF_other {α : Type} (f : Nat → α) (k x : Nat) (v : α) (h : x ≠ k) :
    updF f k v x = f x := by simp [updF, h]

/-- Interleaved execution: at each step some caller `i` advances one stage
of its `with db_write_lock(namespace_id): read; write; commit` sequence.
Acquisition blocks — it fires only when the namespace's token is free. -/
inductive Step (P : List Proc) : Sys → Sys → Prop where
  | acquire (i : Nat) (hi : i < P.length) (σ : Sys)
      (h1 : σ.ph i = .todo)
      (h2 : σ.lock (P.get ⟨i, hi⟩).ns = none) :
      Step P σ ⟨σ.store, updF σ.ph i .locked,
        updF σ.lock (P.get ⟨i, hi⟩).ns (some i)⟩
  | readStep (i : Nat) (hi : i < P.length) (σ : Sys)
      (h1 : σ.ph i = .locked) :
      Step P σ ⟨σ.store,
        updF σ.ph i (.readDone (σ.store (P.get ⟨i, hi⟩).ns)), σ.lock⟩
  | writeCommit (i : Nat) (hi : i < P.length) (σ : Sys) (snap : Store)
      (h1 : σ.ph i = .readDone snap) :
      Step P σ ⟨updF σ.store (P.get ⟨i, hi⟩).ns ((P.get ⟨i, hi⟩).body snap),
        updF σ.ph i .written, σ.lock⟩
  | release (i : Nat) (hi : i < P.length) (σ : Sys)
      (h1 : σ.ph i = .written) :
      Step P σ ⟨σ.store, updF σ.ph i .done,
        updF σ.lock (P.get ⟨i, hi⟩).ns none⟩

/-- Initially every caller is pending and every namespace token free. -/
def Sys.init (s0 : Nat → Store) : Sys := ⟨s0, fun _ => .todo, fun _ => none⟩

inductive Reachable (P : List Proc) (s0 : Nat → Store) : Sys → Prop where
  | init : Reachable P s0 (Sys.init s0)
  | step {σ σ' : Sys} : Reachable P s0 σ → Step P σ σ' → Reachable P s0 σ'

/-- Lock bookkeeping invariant: a held token names an in-critical-section
caller of that namespace; a caller in its critical section holds its
namespace's token; and a read snapshot equals the current committed state
of the caller's namespace. -/
def LockInv (P : List Proc) (σ : Sys) : Prop :=
  (∀ n i, σ.lock n = some i →
    ∃ hi : i < P.length, (P.get ⟨i, hi⟩).ns = n ∧ ((σ.ph i).inCrit = true)) ∧
  (∀ i, ∀ hi : i < P.length, (σ.ph i).inCrit = true →
    σ.lock (P.get ⟨i, hi⟩).ns = some i) ∧
  (∀ i, ∀ hi : i < P.length, ∀ snap : Store, σ.ph i = .readDone snap →
    snap = σ.store (P.get ⟨i, hi⟩).ns)

theorem lockInv_init (P : List Proc) (s0 : Nat → Store) :
    LockInv P (Sys.init s0) := by
  refine ⟨?_, ?_, ?_⟩
  · intro n i h
    simp [Sys.init] at h
  · intro i hi h
    simp [Sys.init, Phase.inCrit] at h
  · intro i hi snap h
    simp [Sys.init] at h

theorem lockInv_step (P : List Proc) {σ σ' : Sys}
    (hs : Step P σ σ') (hinv : LockInv P σ) : LockInv P σ' := by
  obtain ⟨inv1, inv2, inv3⟩ := hinv
  cases hs with
  | acquire i hi σ h1 h2 =>
      refine ⟨?_, ?_, ?_⟩ <;> dsimp only
      · intro n j hl
        by_cases hn : n = (P.get ⟨i, hi⟩).ns
        · subst hn
          rw [updF_same] at hl
          obtain rfl : i = j := Option.some.inj hl
          refine ⟨hi, rfl, ?_⟩
          rw [updF_same]
          rfl
        · rw [updF_other _ _ _ _ hn] at hl
          obtain ⟨hj, hns, hcrit⟩ := inv1 n j hl
          have hji : j ≠ i := by
            intro hh
            subst hh
            rw [h1] at hcrit
            simp [Phase.inCrit] at hcrit
          exact ⟨hj, hns, by rw [updF_other _ _ _ _ hji]; exact hcrit⟩
      · intro j hj hcj
        by_cases hji : j = i
        · subst hji
          rw [updF_same]
        · rw [updF_other _ _ _ _ hji] at hcj
          have hlj := inv2 j hj hcj
          have hn : (P.get ⟨j, hj⟩).ns ≠ (P.get ⟨i, hi⟩).ns := by
            intro hh
            rw [hh, h2] at hlj
            exact Option.noConfusion hlj
          rw [updF_other _ _ _ _ hn]
          exact hlj
      · intro j hj snap hsnap
        have hji : j ≠ i := by
          intro hh
          subst hh
          rw [updF_same] at hsnap
          exact Phase.noConfusion hsnap
        rw [updF_other _ _ _ _ hji] at hsnap
        exact inv3 j hj snap hsnap
  | readStep i hi σ h1 =>
      refine ⟨?_, ?_, ?_⟩ <;> dsimp only
      · intro n j hl
        obtain ⟨hj, hns, hcrit⟩ := inv1 n j hl
        refine ⟨hj, hns, ?_⟩
        by_cases hji : j = i
        · subst hji
          rw [updF_same]
          rfl
        · rw [updF_other _ _ _ _ hji]
          exact hcrit
      · intro j hj hcj
        by_cases hji : j = i
        · subst hji
          exact inv2 j hj (by rw [h1]; rfl)
        · rw [updF_other _ _ _ _ hji] at hcj
          exact inv2 j hj hcj
      · intro j hj snap hsnap
        by_cases hji : j = i
        · subst hji
          rw [updF_same] at hsnap
          exact (Phase.readDone.inj hsnap).symm
        · rw [updF_other _ _ _ _ hji] at hsnap
          exact inv3 j hj snap hsnap
  | writeCommit i hi σ snap h1 =>
      refine ⟨?_, ?_, ?_⟩ <;> dsimp only
      · intro n j hl
        obtain ⟨hj, hns, hcrit⟩ := inv1 n j hl
        refine ⟨hj, hns, ?_⟩
        by_cases hji : j = i
        · subst hji
          rw [updF_same]
          rfl
        · rw [updF_other _ _ _ _ hji]
          exact hcrit
      · intro j hj hcj
        by_cases hji : j = i
        · subst hji
          exact inv2 j hj (by rw [h1]; rfl)
        · rw [updF_other _ _ _ _ hji] at hcj
          exact inv2 j hj hcj
      · intro j hj sn hsn
        have hji : j ≠ i := by
          intro hh
          subst hh
          rw [updF_same] at hsn
          exact Phase.noConfusion hsn
        rw [updF_other _ _ _ _ hji] at hsn
        have hsn0 := inv3 j hj sn hsn
        have hn : (P.get ⟨j, hj⟩).ns ≠ (P.get ⟨i, hi⟩).ns := by
          intro hh
          have hlj := inv2 j hj (by rw [hsn]; rfl)
          have hli := inv2 i hi (by rw [h1]; rfl)
          rw [hh, hli] at hlj
          exact hji (Option.some.inj hlj).symm
        rw [updF_other _ _ _ _ hn]
        exact hsn0
  | release i hi σ h1 =>
      refine ⟨?_, ?_, ?_⟩ <;> dsimp only
      · intro n j hl
        by_cases hn : n = (P.get ⟨i, hi⟩).ns
        · subst hn
          rw [updF_same] at hl
          exact Option.noConfusion hl
        · rw [updF_other _ _ _ _ hn] at hl
          obtain ⟨hj, hns, hcrit⟩ := inv1 n j hl
          have hji : j ≠ i := by
            intro hh
            subst hh
            exact hn (hns.symm)
          exact ⟨hj, hns, by rw [updF_other _ _ _ _ hji]; exact hcrit⟩
      · intro j hj hcj
        have hji : j ≠ i := by
          intro hh
          subst hh
          rw [updF_same] at hcj
          simp [Phase.inCrit] at hcj
        rw [updF_other _ _ _ _ hji] at hcj
        have hlj := inv2 j hj hcj
        have hn : (P.get ⟨j, hj⟩).ns ≠ (P.get ⟨i, hi⟩).ns := by
          intro hh
          have hli := inv2 i hi (by rw [h1]; rfl)
          rw [hh, hli] at hlj
          exact hji (Option.some.inj hlj).symm
        rw [updF_other _ _ _ _ hn]
        exact hlj
      · intro j hj sn hsn
        have hji : j ≠ i := by
          intro hh
          subst hh
          rw [updF_same] at hsn
          exact Phase.noConfusion hsn
        rw [updF_other _ _ _ _ hji] at hsn
        exact inv3 j hj sn hsn

/-- At most one caller per namespace is inside its read-decide-write-commit
critical section. -/
def MutexOK (P : List Proc) (σ : Sys) : Prop :=
  ∀ i, ∀ hi : i < P.length, ∀ j, ∀ hj : j < P.length,
    (P.get ⟨i, hi⟩).ns = (P.get ⟨j, hj⟩).ns →
    (σ.ph i).inCrit = true → (σ.ph j).inCrit = true → i = j

def readConsistent : Phase → Store → Prop
  | .readDone snap, st => snap = st
  | _, _ => True

/-- Every snapshot held by a caller equals the current committed state of
its namespace: between an operation's read and its commit no other
committed write to that namespace intervenes, so each operation decides on
the fully committed effect of the operations serialized before it. -/
def FreshReads (P : List Proc) (σ : Sys) : Prop :=
  ∀ i, ∀ hi : i < P.length, readConsistent (σ.ph i) (σ.store (P.get ⟨i, hi⟩).ns)

/-- C9: under the namespace lock, in every reachable interleaving of
mutating operations, (a) at most one holder per namespace proceeds through
its read-decide-write-commit sequence at a time, and (b) each operation's
read snapshot is the fully committed state of its namespace — the mutating
operations on a namespace are serialized in lock-acquisition order. -/
theorem db_write_lock_serializes (P : List Proc) (s0 : Nat → Store) (σ : Sys)
    (h : Reachable P s0 σ) : MutexOK P σ ∧ FreshReads P σ := by
  have hinv : LockInv P σ := by
    induction h with
    | init => exact lockInv_init P s0
    | step hr hstep ih => exact lockInv_step P hstep ih
  constructor
  · intro i hi j hj hns hci hcj
    have hli := hinv.2.1 i hi hci
    have hlj := hinv.2.1 j hj hcj
    rw [hns] at hli
    rw [hli] at hlj
    exact Option.some.inj hlj
  · intro i hi
    cases hph : σ.ph i with
    | readDone snap =>
        have := hinv.2.2 i hi snap hph
        simpa [readConsistent] using this
    | todo => simp [readConsistent]
    | locked => simp [readConsistent]
    | written => simp [readConsistent]
    | done => simp [readConsistent]

theorem db_write_lock_serializes_witness :
    MutexOK [⟨1, MutOp.archiveOp 10⟩, ⟨1, MutOp.deleteOp 10 "inbox"⟩]
      (Sys.init (fun _ => storeInbox)) ∧
    FreshReads [⟨1, MutOp.archiveOp 10⟩, ⟨1, MutOp.deleteOp 10 "inbox"⟩]
      (Sys.init (fun _ => storeInbox)) :=
  db_write_lock_serializes
    [⟨1, MutOp.archiveOp 10⟩, ⟨1, MutOp.deleteOp 10 "inbox"⟩]
    (fun _ => storeInbox) (Sys.init (fun _ => storeInbox)) Reachable.init
